import Mathlib

/-!
Verification of the contact-directory core of `task.py`:
the `Field`-derived value types (`Name`, `Phone`, `Birthday`), the `Record`
aggregate, and the `AddressBook` collection with its upcoming-birthday query.

Python is embedded shallowly:

* A raised `ValueError` becomes `Except.error (PyError.valueError msg)`;
  mutation becomes explicit state passing (a mutating method returns the new
  object), so an operation that raises before mutating returns an error and no
  new state, mirroring "object left unchanged".
* Python `str.isdigit` and `%d`/`%m`/`%Y` parsing are modelled over ASCII
  decimal digits (the inputs the program is specified on).
* `datetime.date` becomes `Date` (year/month/year triple with the Gregorian
  validity predicate); `datetime.datetime` becomes `DateTime` (a date plus a
  time-of-day tick, only its ordering matters here).  Python compares dates
  and datetimes componentwise and subtracts dates via `toordinal`, as below.
* The global clock reads (`datetime.today()` in `Birthday.__init__`,
  `datetime.now().date()` in `get_upcoming_birthdays`) are threaded as an
  explicit `now` / `today` argument of the embedded function.
-/

namespace TaskPy

/-- A Python exception as raised by this program: always `ValueError(msg)`. -/
inductive PyError where
  | valueError : String → PyError
deriving DecidableEq, Repr

/-- The message carried by a `PyError`. -/
def PyError.msg : PyError → String
  | .valueError m => m

/-- An ASCII decimal digit, `'0'..'9'`. -/
def isAsciiDigit (c : Char) : Bool := '0' ≤ c && c ≤ '9'

/-- Python `str.isdigit()` (restricted to ASCII): non-empty and all digits. -/
def str_isdigit (s : String) : Bool :=
  !s.data.isEmpty && s.data.all isAsciiDigit

/-- Numeric value of a digit string (as `int()` on a matched strptime group). -/
def digitsToNat (l : List Char) : Nat :=
  l.foldl (fun acc c => 10 * acc + (c.toNat - '0'.toNat)) 0

/-! ## Calendar dates (`datetime.date`) -/

/-- Gregorian leap-year test, as `calendar.isleap` / the `datetime` module. -/
def isLeapYear (y : Nat) : Bool :=
  (y % 4 == 0 && y % 100 != 0) || y % 400 == 0

/-- Number of days in month `m` of year `y` (months numbered 1..12). -/
def daysInMonth (y m : Nat) : Nat :=
  if m = 2 then (if isLeapYear y then 29 else 28)
  else if m = 4 ∨ m = 6 ∨ m = 9 ∨ m = 11 then 30
  else 31

/-- A calendar date; validity is a separate predicate, as in the source all
dates built by the program pass through `datetime`'s constructor check. -/
structure Date where
  year : Nat
  month : Nat
  day : Nat
deriving DecidableEq, Repr

/-- `datetime.date`'s constructor check: `MINYEAR <= y <= MAXYEAR`,
`1 <= m <= 12`, `1 <= d <= days_in_month(y, m)`. -/
def validDate (y m d : Nat) : Bool :=
  1 ≤ y && y ≤ 9999 && 1 ≤ m && m ≤ 12 && 1 ≤ d && d ≤ daysInMonth y m

/-- Python date comparison: componentwise on `(year, month, day)`. -/
def Date.lt (a b : Date) : Bool :=
  a.year < b.year ||
    (a.year == b.year &&
      (a.month < b.month || (a.month == b.month && a.day < b.day)))

/-- Days in full years strictly before year `y` (Gregorian, proleptic),
as in `datetime.date.toordinal`. -/
def daysBeforeYear (y : Nat) : Nat :=
  let n := y - 1
  365 * n + n / 4 - n / 100 + n / 400

/-- Days in the full months of year `y` strictly before month `m`. -/
def daysBeforeMonth (y m : Nat) : Nat :=
  (List.range (m - 1)).foldl (fun acc i => acc + daysInMonth y (i + 1)) 0

/-- `datetime.date.toordinal`: day number with 0001-01-01 as day 1. -/
def Date.toOrdinal (d : Date) : Nat :=
  daysBeforeYear d.year + daysBeforeMonth d.year d.month + d.day

/-- `(a - b).days` for Python dates: difference of ordinals. -/
def Date.sub (a b : Date) : Int :=
  (a.toOrdinal : Int) - (b.toOrdinal : Int)

/-- `date.replace(year=y)`: rebuilds the date with the same month and day,
re-running the constructor check (raises `ValueError` when e.g. the date is
February 29 and `y` is not a leap year). -/
def Date.replaceYear (d : Date) (y : Nat) : Except PyError Date :=
  if validDate y d.month d.day then .ok ⟨y, d.month, d.day⟩
  else .error (.valueError "day is out of range for month")

/-- `date.strftime('%d.%m.%Y')`: zero-padded day and month, plain year. -/
def pad2 (n : Nat) : String :=
  if n < 10 then "0" ++ toString n else toString n

/-- Rendering used by `get_upcoming_birthdays` for the entry's date. -/
def strftime_dmY (d : Date) : String :=
  pad2 d.day ++ "." ++ pad2 d.month ++ "." ++ toString d.year

/-! ## `datetime.datetime` (only ordering is needed) -/

/-- A Python `datetime`: a date plus an abstract time-of-day tick
(`0` is midnight, which is what `strptime` produces). -/
structure DateTime where
  date : Date
  tick : Nat
deriving DecidableEq, Repr

/-- Python datetime comparison, componentwise. -/
def DateTime.lt (a b : DateTime) : Bool :=
  a.date.lt b.date || (a.date == b.date && a.tick < b.tick)

/-! ## `datetime.strptime(value, "%d.%m.%Y")`

CPython's `_strptime` compiles the format to the anchored, full-length regex
`(3[01]|[12]\d|0[1-9]|[1-9])\.(1[0-2]|0[1-9]|[1-9])\.(\d\d\d\d)` — one or two
digit day with value 1..31, one or two digit month with value 1..12, exactly
four digit year — and then builds the `datetime`, whose constructor check can
still fail (e.g. February 30).  Since neither token may contain `'.'`, a full
match is exactly: split on `'.'` into three parts, each matching its token. -/

/-- Split a character list at every `'.'` (like `str.split('.')`). -/
def splitDots : List Char → List (List Char)
  | [] => [[]]
  | c :: rest =>
    if c = '.' then [] :: splitDots rest
    else
      match splitDots rest with
      | [] => [[c]]
      | p :: ps => (c :: p) :: ps

/-- Left inverse of `splitDots`: re-join parts with a `'.'` between them. -/
def joinDots : List (List Char) → List Char
  | [] => []
  | [p] => p
  | p :: ps => p ++ '.' :: joinDots ps

/-- The `%d` token: one or two digits, value 1..31. -/
def dayToken (l : List Char) : Bool :=
  l.all isAsciiDigit && (l.length == 1 || l.length == 2) &&
    1 ≤ digitsToNat l && digitsToNat l ≤ 31

/-- The `%m` token: one or two digits, value 1..12. -/
def monthToken (l : List Char) : Bool :=
  l.all isAsciiDigit && (l.length == 1 || l.length == 2) &&
    1 ≤ digitsToNat l && digitsToNat l ≤ 12

/-- The `%Y` token: exactly four digits. -/
def yearToken (l : List Char) : Bool :=
  l.all isAsciiDigit && l.length == 4

/-- `datetime.strptime(s, "%d.%m.%Y")`: `none` models the `ValueError` raised
either by the format mismatch or by the `datetime` constructor check.
On success the result is midnight of the parsed date. -/
def strptime_dmY (s : String) : Option DateTime :=
  match splitDots s.data with
  | [d, m, y] =>
    if dayToken d && monthToken m && yearToken y then
      if validDate (digitsToNat y) (digitsToNat m) (digitsToNat d) then
        some ⟨⟨digitsToNat y, digitsToNat m, digitsToNat d⟩, 0⟩
      else none
    else none
  | _ => none

/-! ## Value types (`Field` subclasses)

Each `X.init` embeds `X.__init__`: it either raises (`Except.error`) or
returns the constructed object.  `Field` only stores `value`, so each wrapper
is a one-field structure. -/

/-- `Name`: a contact name. -/
structure Name where
  value : String
deriving DecidableEq, Repr

/-- `Name.__init__`: `if not value or len(value) < 2: raise ValueError(...)`.
For a string, `not value` is truth-testing: true exactly on `""`. -/
def Name.init (value : String) : Except PyError Name :=
  if value = "" ∨ value.length < 2 then
    .error (.valueError "Name is required and must contain more than 2 symbols")
  else .ok ⟨value⟩

/-- `Phone`: a validated phone number, raw string stored. -/
structure Phone where
  value : String
deriving DecidableEq, Repr

/-- `Phone.__init__`: `if not value.isdigit() or len(value) != 10: raise`. -/
def Phone.init (value : String) : Except PyError Phone :=
  if !str_isdigit value || value.length != 10 then
    .error (.valueError "Phone number should contain 10 digits")
  else .ok ⟨value⟩

/-- `Birthday`: stores the parsed calendar date (`birthday_object.date()`). -/
structure Birthday where
  value : Date
deriving DecidableEq, Repr

/-- `Birthday.__init__` with the clock read (`datetime.today()`) threaded as
`now`: parse with `strptime` (any failure is re-raised as the format error),
reject a parsed datetime strictly greater than `now`, store the date part. -/
def Birthday.init (value : String) (now : DateTime) : Except PyError Birthday :=
  match strptime_dmY value with
  | none => .error (.valueError "Invalid date format. Use DD.MM.YYYY")
  | some birthday_object =>
    if now.lt birthday_object then .error (.valueError "Birthday can\x27t be in future")
    else .ok ⟨birthday_object.date⟩

/-! ## `Record` -/

/-- One contact: name, ordered phone list, optional birthday. -/
structure Record where
  name : Name
  phones : List Phone
  birthday : Option Birthday
deriving DecidableEq, Repr

/-- `Record.__init__(name)`: validate the name, start with no phones and no
birthday. -/
def Record.init (name : String) : Except PyError Record :=
  (Name.init name).map fun n => ⟨n, [], none⟩

/-- `Record.add_birthday(date)` (clock threaded as `now`). -/
def Record.add_birthday (r : Record) (date : String) (now : DateTime) :
    Except PyError Record :=
  (Birthday.init date now).map fun b => { r with birthday := some b }

/-- `Record.add_phone(number)`: append a validated phone. -/
def Record.add_phone (r : Record) (number : String) : Except PyError Record :=
  (Phone.init number).map fun p => { r with phones := r.phones ++ [p] }

/-- `Record.delete_phone(number)`: keep the phones whose value differs. -/
def Record.delete_phone (r : Record) (number : String) : Record :=
  { r with phones := r.phones.filter fun phone => phone.value ≠ number }

/-- `Record.find_phone(number)`: first phone with that raw value, if any. -/
def Record.find_phone (r : Record) (number : String) : Option Phone :=
  r.phones.find? fun phone => number == phone.value

/-- `Record.edit_phone(old_number, new_number)`: look the old number up;
if absent raise; otherwise validate the new number (re-raising with an
`Invalid phone number:` prefix), remove every occurrence of the old number and
append the new phone. -/
def Record.edit_phone (r : Record) (old_number new_number : String) :
    Except PyError Record :=
  match r.find_phone old_number with
  | some _ =>
    match Phone.init new_number with
    | .error e => .error (.valueError ("Invalid phone number: " ++ e.msg))
    | .ok new_phone =>
      .ok { r with
            phones := (r.delete_phone old_number).phones ++ [new_phone] }
  | none => .error (.valueError "Phone number not found")

/-! ## `AddressBook`

`UserDict` data is a Python `dict`: insertion-ordered, unique keys.  It is
embedded as an association list; `dictSet` overwrites in place (keeping the
key's position) or appends, `dictDel` removes the (unique) binding. -/

/-- The `data` dict of an `AddressBook`. -/
abbrev AddressBook := List (String × Record)

/-- `data.get(name, None)`: first binding of the key, if any. -/
def dictGet (book : AddressBook) (k : String) : Option Record :=
  match book.find? (fun kv => kv.1 == k) with
  | some kv => some kv.2
  | none => none

/-- `name in data`. -/
def dictContains (book : AddressBook) (k : String) : Bool :=
  book.any fun kv => kv.1 == k

/-- `data[k] = v`: replace the existing binding in place, else append. -/
def dictSet (book : AddressBook) (k : String) (v : Record) : AddressBook :=
  match book with
  | [] => [(k, v)]
  | kv :: rest =>
    if kv.1 == k then (k, v) :: rest else kv :: dictSet rest k v

/-- `del data[k]`: drop the first binding of the key. -/
def dictDel (book : AddressBook) (k : String) : AddressBook :=
  match book with
  | [] => []
  | kv :: rest => if kv.1 == k then rest else kv :: dictDel rest k

/-- Well-formedness every `dict` has by construction: keys are unique. -/
def dictWF (book : AddressBook) : Prop :=
  (book.map Prod.fst).Nodup

/-- `AddressBook.add_record(record)`: `self.data[record.name.value] = record`. -/
def AddressBook.add_record (book : AddressBook) (record : Record) : AddressBook :=
  dictSet book record.name.value record

/-- `AddressBook.find(name)`: `self.data.get(name, None)`. -/
def AddressBook.find (book : AddressBook) (name : String) : Option Record :=
  dictGet book name

/-- `AddressBook.delete(name)`: delete the binding or raise. -/
def AddressBook.delete (book : AddressBook) (name : String) :
    Except PyError AddressBook :=
  if dictContains book name then .ok (dictDel book name)
  else .error (.valueError "Contact not found")

/-- `self.data.values()`, in insertion order. -/
def AddressBook.values (book : AddressBook) : List Record :=
  book.map Prod.snd

/-! ## `AddressBook.get_upcoming_birthdays`

The loop body appends, per record with a birthday whose window check passes,
the dict `{"Name": ..., "birthday date": ...}`; the method then returns a
formatted report string (not the list itself).  The clock read
(`datetime.now().date()`) is the `today` argument. -/

/-- One appended dict `{"Name": ..., "birthday date": ...}`. -/
structure BEntry where
  name : String
  birthdayDate : String
deriving DecidableEq, Repr

/-- The loop body for one record: `none` when the record contributes no entry,
an error when a `replace` raises (which aborts the whole loop). -/
def processRecord (today : Date) (record : Record) :
    Except PyError (Option BEntry) :=
  match record.birthday with
  | none => .ok none
  | some b => do
    let birthday := b.value
    let birthday_this_year₀ ← birthday.replaceYear today.year
    let birthday_this_year ←
      if birthday_this_year₀.lt today then
        birthday_this_year₀.replaceYear (today.year + 1)
      else .ok birthday_this_year₀
    let days_until_birthday := birthday_this_year.sub today
    if 0 ≤ days_until_birthday ∧ days_until_birthday ≤ 7 then
      .ok (some ⟨record.name.value, strftime_dmY birthday_this_year⟩)
    else .ok none

/-- The loop over `self.data.values()` building `upcoming_birthdays`. -/
def collectUpcoming (today : Date) : List Record → Except PyError (List BEntry)
  | [] => .ok []
  | record :: rest => do
    let e ← processRecord today record
    let tail ← collectUpcoming today rest
    match e with
    | none => .ok tail
    | some entry => .ok (entry :: tail)

/-- Python `repr` of one of the appended dicts, as rendered inside the
f-string (single-quoted; the stored strings contain no quotes to escape). -/
def reprEntry (e : BEntry) : String :=
  "\x7b\x27Name\x27: \x27" ++ e.name ++ "\x27, \x27birthday date\x27: \x27" ++
    e.birthdayDate ++ "\x27\x7d"

/-- Python `repr` of the `upcoming_birthdays` list. -/
def reprEntries (entries : List BEntry) : String :=
  "[" ++ String.intercalate ", " (entries.map reprEntry) ++ "]"

/-- `AddressBook.get_upcoming_birthdays` (clock threaded as `today`): run the
loop, then return the report string — the f-string when the list is
non-empty, the fixed sentence otherwise; `days` is the local constant 7. -/
def AddressBook.get_upcoming_birthdays (book : AddressBook) (today : Date) :
    Except PyError String :=
  (collectUpcoming today book.values).map fun upcoming_birthdays =>
    if 0 < upcoming_birthdays.length then
      "Birthdays in the next 7 days: " ++ reprEntries upcoming_birthdays
    else "No one has birthday in the next 7 days."

/-! ## Spec-side definitions

These follow the specification's words, to be compared with the embedded
code above. -/

/-- Spec: "the birthday's month/day applied to `today`'s year; if that date is
strictly before `today`, advance it to the following year". -/
def specNextOccurrence (birthday today : Date) : Date :=
  let candidate : Date := ⟨today.year, birthday.month, birthday.day⟩
  if candidate.lt today then ⟨today.year + 1, birthday.month, birthday.day⟩
  else candidate

/-- Spec: "`daysUntil = nextOccurrence - today` in whole days". -/
def specDaysUntil (birthday today : Date) : Int :=
  (specNextOccurrence birthday today).sub today

/-- Spec: a record is included when it has a birthday with
`0 <= daysUntil <= 7`; its entry carries the name and the next occurrence. -/
def specEntry (today : Date) (record : Record) : Option BEntry :=
  match record.birthday with
  | none => none
  | some b =>
    if 0 ≤ specDaysUntil b.value today ∧ specDaysUntil b.value today ≤ 7 then
      some ⟨record.name.value, strftime_dmY (specNextOccurrence b.value today)⟩
    else none

/-- Spec (§8): "`s` matches `^\d{10}$` (exactly 10 decimal digit characters,
no other characters)". -/
def specPhonePattern (s : String) : Bool :=
  s.length == 10 && s.data.all isAsciiDigit

/-- Spec (§6): the strict `DD.MM.YYYY` pattern — "two-digit day, two-digit
month, four-digit year, `.`-separated" — with valid calendar values. -/
def specStrictDMY (s : String) : Bool :=
  match splitDots s.data with
  | [d, m, y] =>
    d.all isAsciiDigit && d.length == 2 &&
    m.all isAsciiDigit && m.length == 2 &&
    y.all isAsciiDigit && y.length == 4 &&
    validDate (digitsToNat y) (digitsToNat m) (digitsToNat d)
  | _ => false

/-- The date strings the code's parser accepts, stated shape-first: a one- or
two-digit day, a one- or two-digit month and an exactly four-digit year,
dot-separated, forming a valid calendar date. -/
def LenientDMY (s : String) (d : Date) : Prop :=
  ∃ ds ms ys : List Char,
    s.data = ds ++ '.' :: (ms ++ '.' :: ys) ∧
    ds.all isAsciiDigit ∧ (ds.length = 1 ∨ ds.length = 2) ∧
    ms.all isAsciiDigit ∧ (ms.length = 1 ∨ ms.length = 2) ∧
    ys.all isAsciiDigit ∧ ys.length = 4 ∧
    d = ⟨digitsToNat ys, digitsToNat ms, digitsToNat ds⟩ ∧
    validDate d.year d.month d.day = true

/-! ## Helper lemmas -/

theorem string_length_eq_data (s : String) : s.length = s.data.length := rfl

/-! ### C7 — `Name` validation -/

/-- C7: `Name(s)` fails with the validation `ValueError` when `s` is empty or
shorter than 2 characters, and succeeds storing `s` unchanged when
`length s ≥ 2` (immutability holds by construction in the functional
embedding: nothing ever rebuilds a `Name`). -/
theorem name_validation (s : String) :
    (s.length < 2 →
      Name.init s =
        .error (.valueError "Name is required and must contain more than 2 symbols")) ∧
    (2 ≤ s.length → Name.init s = .ok ⟨s⟩) := by
  constructor
  · intro h
    simp only [Name.init, if_pos (Or.inr h)]
  · intro h
    have h1 : ¬ (s = "" ∨ s.length < 2) := by
      rintro (rfl | hlt)
      · simp at h
      · omega
    simp only [Name.init, if_neg h1]

/-- Witness for C7 at `"A"` (too short) and `"Ab"` (accepted). -/
theorem name_validation_witness :
    Name.init "A" =
      .error (.valueError "Name is required and must contain more than 2 symbols") ∧
    Name.init "Ab" = .ok ⟨"Ab"⟩ :=
  ⟨(name_validation "A").1 (by decide), (name_validation "Ab").2 (by decide)⟩

/-! ### C5 — `Phone` validation -/

/-- C5: `Phone(s)` succeeds, storing `s` unchanged, exactly when `s` is ten
decimal digits and nothing else; otherwise it fails with the validation
`ValueError`. -/
theorem phone_validation (s : String) :
    (Phone.init s = .ok ⟨s⟩ ↔ specPhonePattern s = true) ∧
    (specPhonePattern s = false →
      Phone.init s = .error (.valueError "Phone number should contain 10 digits")) := by
  have hlen : s.length = s.data.length := rfl
  have hiff : (!str_isdigit s || s.length != 10) = false ↔ specPhonePattern s = true := by
    simp only [str_isdigit, specPhonePattern, hlen]
    cases hd : s.data with
    | nil => simp
    | cons c cs =>
      simp only [List.isEmpty_cons, Bool.not_false, Bool.true_and, Bool.or_eq_false_iff,
        Bool.not_eq_false', Bool.and_eq_true, beq_iff_eq, bne_eq_false_iff_eq]
      constructor
      · rintro ⟨hall, hl⟩; exact ⟨hl, hall⟩
      · rintro ⟨hl, hall⟩; exact ⟨hall, hl⟩
  constructor
  · constructor
    · intro h
      by_contra hpat
      have hpat' : (!str_isdigit s || s.length != 10) ≠ false := fun hc =>
        hpat (hiff.mp hc)
      have : (!str_isdigit s || s.length != 10) = true := by
        cases hb : (!str_isdigit s || s.length != 10)
        · exact absurd hb hpat'
        · rfl
      simp only [Phone.init, this, if_pos] at h
      cases h
    · intro hpat
      simp only [Phone.init, hiff.mpr hpat, Bool.false_eq_true, if_neg,
        not_false_eq_true]
  · intro hpat
    have : (!str_isdigit s || s.length != 10) = true := by
      cases hb : (!str_isdigit s || s.length != 10)
      · exact absurd (hiff.mp hb) (by simp [hpat])
      · rfl
    simp only [Phone.init, this, if_pos]

/-- Witness for C5 at `"0123456789"` (accepted) and `"12345abcde"`
(rejected). -/
theorem phone_validation_witness :
    Phone.init "0123456789" = .ok ⟨"0123456789"⟩ ∧
    Phone.init "12345abcde" =
      .error (.valueError "Phone number should contain 10 digits") :=
  ⟨(phone_validation "0123456789").1.mpr (by decide),
   (phone_validation "12345abcde").2 (by decide)⟩

/-! ### C8 — `Record.delete_phone` -/

/-- C8: `delete_phone(number)` removes every stored phone whose raw value is
`number` (the result contains no such phone, yet keeps every other phone with
its multiplicity, in order — it is a sublist of the original), and is a no-op
when nothing matches.  It is a total function: no error is possible. -/
theorem delete_phone_spec (r : Record) (number : String) :
    (∀ p ∈ (r.delete_phone number).phones, p.value ≠ number) ∧
    List.Sublist (r.delete_phone number).phones r.phones ∧
    (∀ p : Phone, p.value ≠ number →
      (r.delete_phone number).phones.count p = r.phones.count p) ∧
    ((∀ p ∈ r.phones, p.value ≠ number) → r.delete_phone number = r) := by
  refine ⟨?_, ?_, ?_, ?_⟩
  · intro p hp
    have := List.of_mem_filter hp
    simpa using this
  · exact List.filter_sublist _
  · intro p hp
    simp only [Record.delete_phone]
    rw [List.count_filter]
    simp [hp]
  · intro hall
    simp only [Record.delete_phone]
    have : r.phones.filter (fun phone => phone.value ≠ number) = r.phones :=
      List.filter_eq_self.mpr fun p hp => by simpa using hall p hp
    rw [this]

/-- Witness for C8: deleting an absent number from a one-phone record leaves
the record unchanged, and deleting a duplicated number empties the count. -/
theorem delete_phone_spec_witness :
    Record.delete_phone ⟨⟨"John"⟩, [⟨"1111111111"⟩], none⟩ "9999999999" =
      ⟨⟨"John"⟩, [⟨"1111111111"⟩], none⟩ ∧
    (Record.delete_phone
        ⟨⟨"John"⟩, [⟨"1111111111"⟩, ⟨"2222222222"⟩, ⟨"1111111111"⟩], none⟩
        "1111111111").phones.count ⟨"2222222222"⟩ =
      ([⟨"1111111111"⟩, ⟨"2222222222"⟩, ⟨"1111111111"⟩] : List Phone).count
        ⟨"2222222222"⟩ :=
  ⟨(delete_phone_spec ⟨⟨"John"⟩, [⟨"1111111111"⟩], none⟩ "9999999999").2.2.2
      (by decide),
   (delete_phone_spec
        ⟨⟨"John"⟩, [⟨"1111111111"⟩, ⟨"2222222222"⟩, ⟨"1111111111"⟩], none⟩
        "1111111111").2.2.1 ⟨"2222222222"⟩ (by decide)⟩

/-! ### Dictionary lemmas (shared) -/

theorem dictGet_eq_none_of_not_mem (book : AddressBook) (k : String)
    (h : k ∉ book.map Prod.fst) : dictGet book k = none := by
  induction book with
  | nil => rfl
  | cons kv rest ih =>
    simp only [List.map_cons, List.mem_cons, not_or] at h
    simp only [dictGet, List.find?_cons]
    have : (kv.1 == k) = false := by
      simp [beq_eq_false_iff_ne]
      exact fun he => h.1 he.symm
    rw [this]
    have := ih h.2
    simpa [dictGet] using this

theorem dictContains_iff_mem (book : AddressBook) (k : String) :
    dictContains book k = true ↔ k ∈ book.map Prod.fst := by
  simp only [dictContains, List.any_eq_true, beq_iff_eq, List.mem_map]

theorem dictGet_dictDel_self (book : AddressBook) (k : String)
    (hwf : dictWF book) : dictGet (dictDel book k) k = none := by
  induction book with
  | nil => rfl
  | cons kv rest ih =>
    simp only [dictWF, List.map_cons, List.nodup_cons] at hwf
    by_cases hk : kv.1 = k
    · simp only [dictDel, hk, beq_self_eq_true, if_pos]
      exact dictGet_eq_none_of_not_mem rest k (hk ▸ hwf.1)
    · have hb : (kv.1 == k) = false := by simpa using hk
      simp only [dictDel, hb, Bool.false_eq_true, if_neg, not_false_eq_true,
        dictGet, List.find?_cons, hb]
      have := ih hwf.2
      simpa [dictGet] using this

theorem dictGet_dictDel_ne (book : AddressBook) (k other : String)
    (h : other ≠ k) : dictGet (dictDel book k) other = dictGet book other := by
  induction book with
  | nil => rfl
  | cons kv rest ih =>
    by_cases hk : kv.1 = k
    · simp only [dictDel, hk, beq_self_eq_true, if_pos]
      have hb : (kv.1 == other) = false := by
        simp [hk, beq_eq_false_iff_ne]
        exact fun he => h he.symm
      simp [dictGet, List.find?_cons, hb]
    · have hb : (kv.1 == k) = false := by simpa using hk
      simp only [dictDel, hb, Bool.false_eq_true, if_neg, not_false_eq_true]
      by_cases ho : kv.1 = other
      · simp [dictGet, List.find?_cons, ho]
      · have hbo : (kv.1 == other) = false := by simpa using ho
        simp only [dictGet, List.find?_cons, hbo]
        have := ih
        simpa [dictGet] using this

/-! ### C3 — `AddressBook.delete` -/

/-- C3: `delete(name)` raises the `Contact not found` `ValueError` exactly
when `name` is not a key; on a present key it removes that entry (the key no
longer resolves, every other key resolves as before) and does not raise.
The third conjunct separates the kind from `ValidationError`: no value-type
constructor ever produces this error value. -/
theorem delete_spec (book : AddressBook) (name : String) (hwf : dictWF book) :
    (dictContains book name = false →
      AddressBook.delete book name = .error (.valueError "Contact not found")) ∧
    (dictContains book name = true →
      AddressBook.delete book name = .ok (dictDel book name) ∧
      AddressBook.find (dictDel book name) name = none ∧
      ∀ other : String, other ≠ name →
        AddressBook.find (dictDel book name) other = AddressBook.find book other) ∧
    (∀ s : String,
      Name.init s ≠ .error (.valueError "Contact not found") ∧
      Phone.init s ≠ .error (.valueError "Contact not found") ∧
      ∀ now : DateTime, Birthday.init s now ≠ .error (.valueError "Contact not found")) := by
  refine ⟨?_, ?_, ?_⟩
  · intro h
    simp [AddressBook.delete, h]
  · intro h
    refine ⟨by simp [AddressBook.delete, h], ?_, ?_⟩
    · exact dictGet_dictDel_self book name hwf
    · intro other hother
      exact dictGet_dictDel_ne book name other hother
  · intro s
    refine ⟨?_, ?_, ?_⟩
    · simp only [Name.init]
      split <;> simp
    · simp only [Phone.init]
      split <;> simp
    · intro now
      simp only [Birthday.init]
      split
      · simp
      · split <;> simp

/-- Witness for C3: deleting `"Unknown"` from an empty directory raises the
not-found error; deleting a present key removes exactly that entry. -/
theorem delete_spec_witness :
    AddressBook.delete [] "Unknown" = .error (.valueError "Contact not found") ∧
    AddressBook.delete [("John", ⟨⟨"John"⟩, [], none⟩)] "John" = .ok [] :=
  ⟨(delete_spec [] "Unknown" (by simp [dictWF])).1 (by decide),
   ((delete_spec [("John", ⟨⟨"John"⟩, [], none⟩)] "John"
      (by simp [dictWF])).2.1 (by decide)).1⟩

theorem dictGet_dictSet_self (book : AddressBook) (k : String) (v : Record) :
    dictGet (dictSet book k v) k = some v := by
  induction book with
  | nil => simp [dictSet, dictGet]
  | cons kv rest ih =>
    by_cases hk : kv.1 = k
    · have hb : (kv.1 == k) = true := by simpa using hk
      simp [dictSet, hb, dictGet]
    · have hb : (kv.1 == k) = false := by simpa using hk
      simp only [dictSet, hb, Bool.false_eq_true, if_neg, not_false_eq_true]
      simp only [dictGet, List.find?_cons, hb]
      simpa [dictGet] using ih

theorem dictGet_dictSet_ne (book : AddressBook) (k other : String) (v : Record)
    (h : other ≠ k) : dictGet (dictSet book k v) other = dictGet book other := by
  induction book with
  | nil =>
    have hb : (k == other) = false := by
      simp [beq_eq_false_iff_ne]
      exact fun he => h he.symm
    simp [dictSet, dictGet, List.find?_cons, hb]
  | cons kv rest ih =>
    by_cases hk : kv.1 = k
    · have hb : (kv.1 == k) = true := by simpa using hk
      have hbo : (kv.1 == other) = false := by
        simp [beq_eq_false_iff_ne]
        exact fun he => h (hk ▸ he).symm
      have hko : (k == other) = false := by
        simp [beq_eq_false_iff_ne]
        exact fun he => h he.symm
      simp [dictSet, hb, dictGet, List.find?_cons, hbo, hko]
    · have hb : (kv.1 == k) = false := by simpa using hk
      simp only [dictSet, hb, Bool.false_eq_true, if_neg, not_false_eq_true]
      by_cases ho : kv.1 = other
      · have hbo : (kv.1 == other) = true := by simpa using ho
        simp [dictGet, List.find?_cons, hbo]
      · have hbo : (kv.1 == other) = false := by simpa using ho
        simp only [dictGet, List.find?_cons, hbo]
        simpa [dictGet] using ih

theorem keys_dictSet (book : AddressBook) (k : String) (v : Record) :
    (dictSet book k v).map Prod.fst =
      if dictContains book k then book.map Prod.fst
      else book.map Prod.fst ++ [k] := by
  induction book with
  | nil => simp [dictSet, dictContains]
  | cons kv rest ih =>
    by_cases hk : kv.1 = k
    · have hb : (kv.1 == k) = true := by simpa using hk
      simp [dictSet, hb, dictContains, hk]
    · have hb : (kv.1 == k) = false := by simpa using hk
      simp only [dictSet, hb, Bool.false_eq_true, if_neg, not_false_eq_true,
        List.map_cons, dictContains, List.any_cons, hb, Bool.false_or]
      rw [ih]
      simp only [dictContains]
      split <;> simp

theorem dictWF_dictSet (book : AddressBook) (k : String) (v : Record)
    (hwf : dictWF book) : dictWF (dictSet book k v) := by
  simp only [dictWF, keys_dictSet]
  split
  · exact hwf
  · rename_i hc
    have hk : k ∉ book.map Prod.fst := fun hm =>
      hc ((dictContains_iff_mem book k).mpr hm)
    rw [List.nodup_append]
    refine ⟨hwf, List.nodup_singleton k, fun a ha hb => ?_⟩
    simp only [List.mem_singleton] at hb
    exact hk (hb ▸ ha)

theorem dictContains_dictSet_self (book : AddressBook) (k : String) (v : Record) :
    dictContains (dictSet book k v) k = true := by
  rw [dictContains_iff_mem, keys_dictSet]
  split
  · rename_i hc
    exact (dictContains_iff_mem book k).mp hc
  · simp

/-! ### C9 — `AddressBook.add_record` overwrite -/

/-- C9: `add_record` is a total function (no raise in the embedding), and
adding two records sharing one name leaves exactly one entry under that name —
the second record — while every other key resolves as before; well-formedness
(unique keys) is preserved. -/
theorem add_record_overwrite (book : AddressBook) (r1 r2 : Record)
    (hwf : dictWF book) (hname : r1.name.value = r2.name.value) :
    AddressBook.find ((book.add_record r1).add_record r2) r2.name.value = some r2 ∧
    (((book.add_record r1).add_record r2).map Prod.fst).count r2.name.value = 1 ∧
    (∀ other : String, other ≠ r2.name.value →
      AddressBook.find ((book.add_record r1).add_record r2) other =
        AddressBook.find book other) ∧
    dictWF ((book.add_record r1).add_record r2) := by
  have hwf1 : dictWF (book.add_record r1) :=
    dictWF_dictSet book r1.name.value r1 hwf
  have hwf2 : dictWF ((book.add_record r1).add_record r2) :=
    dictWF_dictSet _ r2.name.value r2 hwf1
  refine ⟨dictGet_dictSet_self _ _ _, ?_, ?_, hwf2⟩
  · have hc : dictContains (book.add_record r1) r2.name.value = true := by
      simpa [AddressBook.add_record, hname] using
        dictContains_dictSet_self book r1.name.value r1
    have hkeys := keys_dictSet (book.add_record r1) r2.name.value r2
    rw [hc] at hkeys
    simp only [AddressBook.add_record] at hkeys ⊢
    rw [hkeys]
    have hmem : r2.name.value ∈ (book.add_record r1).map Prod.fst :=
      (dictContains_iff_mem _ _).mp hc
    exact List.count_eq_one_of_mem hwf1 hmem
  · intro other hother
    rw [AddressBook.find,
      show ((book.add_record r1).add_record r2) =
        dictSet (book.add_record r1) r2.name.value r2 from rfl,
      dictGet_dictSet_ne _ _ _ _ hother]
    exact dictGet_dictSet_ne _ _ _ _ (hname ▸ hother)

/-- Witness for C9: adding `"John"` twice leaves one entry holding the second
record, and an unrelated key is untouched. -/
theorem add_record_overwrite_witness :
    AddressBook.find
        ((AddressBook.add_record [] ⟨⟨"John"⟩, [], none⟩).add_record
          ⟨⟨"John"⟩, [⟨"0123456789"⟩], none⟩) "John" =
      some ⟨⟨"John"⟩, [⟨"0123456789"⟩], none⟩ ∧
    (((AddressBook.add_record [] ⟨⟨"John"⟩, [], none⟩).add_record
        ⟨⟨"John"⟩, [⟨"0123456789"⟩], none⟩).map Prod.fst).count "John" = 1 :=
  ⟨(add_record_overwrite [] ⟨⟨"John"⟩, [], none⟩ ⟨⟨"John"⟩, [⟨"0123456789"⟩], none⟩
      (by simp [dictWF]) rfl).1,
   (add_record_overwrite [] ⟨⟨"John"⟩, [], none⟩ ⟨⟨"John"⟩, [⟨"0123456789"⟩], none⟩
      (by simp [dictWF]) rfl).2.1⟩

/-! ### C4 — `Record.edit_phone` -/

theorem phone_init_ok (s : String) (p : Phone) (h : Phone.init s = .ok p) :
    p = ⟨s⟩ := by
  simp only [Phone.init] at h
  split at h
  · cases h
  · cases h; rfl

/-- C4: `edit_phone(old, new)` raises the not-found `ValueError` when `old` is
absent; raises the prefixed validation `ValueError` when `old` is present but
`new` is invalid; and on success removes all occurrences of `old` and appends
exactly one phone, whose value is `new`, at the end.  In the embedding an
error returns no new record: the Python object is untouched because both
raises happen before any mutation. -/
theorem edit_phone_spec (r : Record) (old_number new_number : String) :
    (r.find_phone old_number = none →
      r.edit_phone old_number new_number =
        .error (.valueError "Phone number not found")) ∧
    ((r.find_phone old_number).isSome →
      (∀ e : PyError, Phone.init new_number = .error e →
        r.edit_phone old_number new_number =
          .error (.valueError ("Invalid phone number: " ++ e.msg))) ∧
      (∀ p : Phone, Phone.init new_number = .ok p →
        p.value = new_number ∧
        r.edit_phone old_number new_number =
          .ok { r with phones :=
            (r.phones.filter fun ph => ph.value ≠ old_number) ++ [p] })) := by
  constructor
  · intro h
    simp [Record.edit_phone, h]
  · intro h
    obtain ⟨q, hq⟩ := Option.isSome_iff_exists.mp h
    constructor
    · intro e he
      simp [Record.edit_phone, hq, he]
    · intro p hp
      refine ⟨by rw [phone_init_ok new_number p hp], ?_⟩
      simp [Record.edit_phone, hq, hp, Record.delete_phone]

/-- Witness for C4, on the §8 record with phone `"1111111111"`: editing it to
`"2222222222"` leaves exactly that one phone; editing an absent number fails
with the not-found error. -/
theorem edit_phone_spec_witness :
    Record.edit_phone ⟨⟨"John"⟩, [⟨"1111111111"⟩], none⟩ "1111111111" "2222222222" =
      .ok ⟨⟨"John"⟩, [⟨"2222222222"⟩], none⟩ ∧
    Record.edit_phone ⟨⟨"John"⟩, [⟨"1111111111"⟩], none⟩ "9999999999" "2222222222" =
      .error (.valueError "Phone number not found") :=
  ⟨((edit_phone_spec ⟨⟨"John"⟩, [⟨"1111111111"⟩], none⟩ "1111111111"
        "2222222222").2 (by decide)).2 ⟨"2222222222"⟩ (by rfl) |>.2,
   (edit_phone_spec ⟨⟨"John"⟩, [⟨"1111111111"⟩], none⟩ "9999999999"
        "2222222222").1 (by decide)⟩

/-! ### Upcoming-birthday loop lemmas (shared) -/

theorem replaceYear_ok (d : Date) (y : Nat) (c : Date)
    (h : d.replaceYear y = .ok c) :
    c = ⟨y, d.month, d.day⟩ ∧ validDate y d.month d.day = true := by
  simp only [Date.replaceYear] at h
  split at h
  · cases h; constructor; rfl; assumption
  · cases h

/-- When the loop body returns normally, its contribution is exactly the
spec-side entry: the year-replacement steps agree with `specNextOccurrence`
and the window check with `0 ≤ specDaysUntil ≤ 7`. -/
theorem processRecord_ok (today : Date) (r : Record) (o : Option BEntry)
    (h : processRecord today r = .ok o) : o = specEntry today r := by
  unfold processRecord at h
  cases hb : r.birthday with
  | none =>
    rw [hb] at h
    cases h
    simp [specEntry, hb]
  | some b =>
    rw [hb] at h
    simp only [bind, Except.bind] at h
    split at h
    · cases h
    · rename_i c hrep
      obtain ⟨hc, -⟩ := replaceYear_ok _ _ _ hrep
      subst hc
      simp only [specEntry, hb, specDaysUntil, specNextOccurrence]
      split at h
      · rename_i hlt
        split at h
        · cases h
        · rename_i c2 hrep2
          obtain ⟨hc2, -⟩ := replaceYear_ok _ _ _ hrep2
          subst hc2
          rw [if_pos hlt]
          split at h
          · rename_i hcond; cases h; rw [if_pos hcond]
          · rename_i hcond; cases h; rw [if_neg hcond]
      · rename_i hlt
        rw [if_neg hlt]
        split at h
        · rename_i hcond; cases h; rw [if_pos hcond]
        · rename_i hcond; cases h; rw [if_neg hcond]

/-- A normal return of the loop yields exactly the spec-side entries,
in insertion order. -/
theorem collect_ok_eq_filterMap (today : Date) (recs : List Record)
    (entries : List BEntry) (h : collectUpcoming today recs = .ok entries) :
    entries = recs.filterMap (specEntry today) := by
  induction recs generalizing entries with
  | nil =>
    simp only [collectUpcoming] at h
    cases h
    simp
  | cons r rest ih =>
    simp only [collectUpcoming, bind, Except.bind] at h
    cases hp : processRecord today r with
    | error e => rw [hp] at h; cases h
    | ok o =>
      rw [hp] at h
      cases hc : collectUpcoming today rest with
      | error e => rw [hc] at h; cases h
      | ok tail =>
        rw [hc] at h
        have ht := ih tail hc
        have ho := processRecord_ok today r o hp
        cases o with
        | none =>
          cases h
          rw [List.filterMap_cons, ← ho]
          exact ht
        | some entry =>
          cases h
          rw [List.filterMap_cons, ← ho, ht]

/-- One failing loop body aborts the whole query with an error. -/
theorem collect_error_of_mem (today : Date) (recs : List Record) (r : Record)
    (hr : r ∈ recs) (e : PyError) (hp : processRecord today r = .error e) :
    ∃ e2, collectUpcoming today recs = .error e2 := by
  induction recs with
  | nil => cases hr
  | cons head rest ih =>
    simp only [collectUpcoming, bind, Except.bind]
    cases hh : processRecord today head with
    | error e3 => exact ⟨e3, rfl⟩
    | ok o =>
      rcases List.mem_cons.mp hr with rfl | hr2
      · rw [hh] at hp; cases hp
      · obtain ⟨e2, hc⟩ := ih hr2
        rw [hc]
        cases o <;> exact ⟨e2, rfl⟩

/-! ### C1 — inclusion criterion of `get_upcoming_birthdays` -/

/-- C1: whenever the query's loop completes without raising, the collected
entries are exactly one entry per record whose birthday's next occurrence
(month/day at `today`'s year, pushed to the next year when strictly before
`today`) lies 0..7 whole days from `today`; in particular a record with a
birthday is represented in the output exactly when `0 ≤ daysUntil ≤ 7`,
with today's own month/day giving `daysUntil = 0` (included) and an
already-passed date measured against next year. -/
theorem upcoming_inclusion (book : AddressBook) (today : Date)
    (entries : List BEntry)
    (hok : collectUpcoming today book.values = .ok entries) :
    entries = book.values.filterMap (specEntry today) ∧
    ∀ r ∈ book.values, ∀ b : Birthday, r.birthday = some b →
      ((∃ e, specEntry today r = some e ∧ e ∈ entries) ↔
        (0 ≤ specDaysUntil b.value today ∧ specDaysUntil b.value today ≤ 7)) := by
  have hfm := collect_ok_eq_filterMap today book.values entries hok
  refine ⟨hfm, ?_⟩
  intro r hr b hb
  constructor
  · rintro ⟨e, he, -⟩
    simp only [specEntry, hb] at he
    split at he
    · assumption
    · cases he
  · intro hcrit
    refine ⟨⟨r.name.value, strftime_dmY (specNextOccurrence b.value today)⟩, ?_, ?_⟩
    · simp [specEntry, hb, hcrit]
    · rw [hfm]
      exact List.mem_filterMap.mpr ⟨r, hr, by simp [specEntry, hb, hcrit]⟩

/-- Witness for C1 on the §8 data, `today = 2024-06-10`: birthday `15.06.1990`
included (`daysUntil = 5`), birthday `01.06.1990` excluded (next occurrence in
2025), birthday `10.06.1999` included (`daysUntil = 0`). -/
theorem upcoming_inclusion_witness :
    ([⟨"John", "15.06.2024"⟩, ⟨"Kate", "10.06.2024"⟩] : List BEntry) =
      (AddressBook.values
        [("John", ⟨⟨"John"⟩, [], some ⟨⟨1990, 6, 15⟩⟩⟩),
         ("Bill", ⟨⟨"Bill"⟩, [], some ⟨⟨1990, 6, 1⟩⟩⟩),
         ("Kate", ⟨⟨"Kate"⟩, [], some ⟨⟨1999, 6, 10⟩⟩⟩)]).filterMap
        (specEntry ⟨2024, 6, 10⟩) ∧
    (0 ≤ specDaysUntil ⟨1999, 6, 10⟩ ⟨2024, 6, 10⟩ ∧
      specDaysUntil ⟨1999, 6, 10⟩ ⟨2024, 6, 10⟩ ≤ 7) :=
  ⟨(upcoming_inclusion
      [("John", ⟨⟨"John"⟩, [], some ⟨⟨1990, 6, 15⟩⟩⟩),
       ("Bill", ⟨⟨"Bill"⟩, [], some ⟨⟨1990, 6, 1⟩⟩⟩),
       ("Kate", ⟨⟨"Kate"⟩, [], some ⟨⟨1999, 6, 10⟩⟩⟩)]
      ⟨2024, 6, 10⟩ [⟨"John", "15.06.2024"⟩, ⟨"Kate", "10.06.2024"⟩]
      (by rfl)).1,
   ((upcoming_inclusion
      [("John", ⟨⟨"John"⟩, [], some ⟨⟨1990, 6, 15⟩⟩⟩),
       ("Bill", ⟨⟨"Bill"⟩, [], some ⟨⟨1990, 6, 1⟩⟩⟩),
       ("Kate", ⟨⟨"Kate"⟩, [], some ⟨⟨1999, 6, 10⟩⟩⟩)]
      ⟨2024, 6, 10⟩ [⟨"John", "15.06.2024"⟩, ⟨"Kate", "10.06.2024"⟩]
      (by rfl)).2 ⟨⟨"Kate"⟩, [], some ⟨⟨1999, 6, 10⟩⟩⟩ (by simp [AddressBook.values])
      ⟨⟨1999, 6, 10⟩⟩ rfl).mp
     ⟨⟨"Kate", "10.06.2024"⟩, by rfl, by simp⟩⟩

/-! ### C10 — the leap-day crash -/

theorem processRecord_feb29 (today : Date) (r : Record) (b : Birthday)
    (hb : r.birthday = some b) (hm : b.value.month = 2) (hd : b.value.day = 29)
    (hleap : isLeapYear today.year = false) :
    processRecord today r =
      .error (.valueError "day is out of range for month") := by
  have hval : validDate today.year b.value.month b.value.day = false := by
    rw [hm, hd]
    simp [validDate, daysInMonth, hleap]
  have hrep : b.value.replaceYear today.year =
      .error (.valueError "day is out of range for month") := by
    simp [Date.replaceYear, hval]
  unfold processRecord
  rw [hb]
  simp [bind, Except.bind, hrep]

/-- C10: a directory holding any record whose stored birthday is February 29
makes `get_upcoming_birthdays` raise (the `replace(year=today.year)` step
fails with `ValueError`) whenever `today`'s year is not a leap year, instead
of returning the report — the query is not total over valid states. -/
theorem upcoming_feb29_crash (book : AddressBook) (today : Date)
    (r : Record) (b : Birthday) (hr : r ∈ book.values)
    (hb : r.birthday = some b) (hm : b.value.month = 2) (hd : b.value.day = 29)
    (hleap : isLeapYear today.year = false) :
    ∃ e : PyError, AddressBook.get_upcoming_birthdays book today = .error e := by
  obtain ⟨e2, hc⟩ := collect_error_of_mem today book.values r hr _
    (processRecord_feb29 today r b hb hm hd hleap)
  exact ⟨e2, by simp [AddressBook.get_upcoming_birthdays, hc, Except.map]⟩

/-- Witness for C10: a birthday stored as 2020-02-29 (a valid past date)
crashes the query when today is 2023-03-01. -/
theorem upcoming_feb29_crash_witness :
    ∃ e : PyError,
      AddressBook.get_upcoming_birthdays
        [("Leap", ⟨⟨"Leap"⟩, [], some ⟨⟨2020, 2, 29⟩⟩⟩)] ⟨2023, 3, 1⟩ =
        .error e :=
  upcoming_feb29_crash [("Leap", ⟨⟨"Leap"⟩, [], some ⟨⟨2020, 2, 29⟩⟩⟩)]
    ⟨2023, 3, 1⟩ ⟨⟨"Leap"⟩, [], some ⟨⟨2020, 2, 29⟩⟩⟩ ⟨⟨2020, 2, 29⟩⟩
    (by simp [AddressBook.values]) rfl rfl rfl (by decide)

/-! ### C2 — signature and result shape of the query -/

/-- C2 counterexample: on a directory whose single record has birthday
`15.06.1990` and `today = 2024-06-10`, the query returns the rendered report
string — not an ordered sequence of `(name, nextOccurrenceDate)` records —
and its window is the hard-coded 7 of the message (no `withinDays`
parameter exists on the source method). -/
theorem upcoming_returns_report_string :
    AddressBook.get_upcoming_birthdays
        [("John", ⟨⟨"John"⟩, [], some ⟨⟨1990, 6, 15⟩⟩⟩)] ⟨2024, 6, 10⟩ =
      .ok ("Birthdays in the next 7 days: [\x7b\x27Name\x27: \x27John\x27, \x27birthday date\x27: \x2715.06.2024\x27\x7d]") := by
  rfl

/-- C2 as amended: the query takes no window argument (the window is the
constant 7) and reads the clock for `today` (threaded as the embedding's
argument); when the loop completes it returns a single formatted message
string — the `Birthdays in the next 7 days: [...]` rendering of the
collected entries when any exist, else the fixed no-one sentence — and the
entries' names appear in directory insertion order (a sublist of the
records' names). -/
theorem upcoming_report_shape (book : AddressBook) (today : Date)
    (entries : List BEntry)
    (hok : collectUpcoming today book.values = .ok entries) :
    AddressBook.get_upcoming_birthdays book today =
      .ok (if 0 < entries.length then
        "Birthdays in the next 7 days: " ++ reprEntries entries
      else "No one has birthday in the next 7 days.") ∧
    List.Sublist (entries.map BEntry.name)
      (book.values.map fun r => r.name.value) := by
  constructor
  · simp [AddressBook.get_upcoming_birthdays, hok, Except.map]
  · rw [collect_ok_eq_filterMap today book.values entries hok]
    have : ∀ recs : List Record,
        List.Sublist ((recs.filterMap (specEntry today)).map BEntry.name)
          (recs.map fun r => r.name.value) := by
      intro recs
      induction recs with
      | nil => simp
      | cons r rest ih =>
        rw [List.filterMap_cons]
        cases hs : specEntry today r with
        | none =>
          rw [List.map_cons]
          exact ih.cons _
        | some e =>
          have hname : e.name = r.name.value := by
            simp only [specEntry] at hs
            split at hs
            · cases hs
            · split at hs
              · cases hs; rfl
              · cases hs
          simp only [List.map_cons, hname]
          exact ih.cons₂ _
    exact this book.values

/-- Witness for C2 as amended: the empty directory yields the no-one
sentence, and a qualifying record yields the rendered report. -/
theorem upcoming_report_shape_witness :
    AddressBook.get_upcoming_birthdays ([] : AddressBook) ⟨2024, 6, 10⟩ =
      .ok "No one has birthday in the next 7 days." ∧
    AddressBook.get_upcoming_birthdays
        [("Kate", ⟨⟨"Kate"⟩, [], some ⟨⟨1999, 6, 10⟩⟩⟩)] ⟨2024, 6, 10⟩ =
      .ok ("Birthdays in the next 7 days: " ++
        reprEntries [⟨"Kate", "10.06.2024"⟩]) :=
  ⟨(upcoming_report_shape [] ⟨2024, 6, 10⟩ [] (by rfl)).1,
   (upcoming_report_shape [("Kate", ⟨⟨"Kate"⟩, [], some ⟨⟨1999, 6, 10⟩⟩⟩)]
      ⟨2024, 6, 10⟩ [⟨"Kate", "10.06.2024"⟩] (by rfl)).1⟩

/-! ### `splitDots` structure lemmas (shared, for C6) -/

theorem splitDots_ne_nil (l : List Char) : splitDots l ≠ [] := by
  induction l with
  | nil => simp [splitDots]
  | cons c rest ih =>
    simp only [splitDots]
    split
    · simp
    · split
      · simp
      · simp

theorem joinDots_cons_cons (p q : List Char) (qs : List (List Char)) :
    joinDots (p :: q :: qs) = p ++ '.' :: joinDots (q :: qs) := rfl

theorem joinDots_splitDots (l : List Char) : joinDots (splitDots l) = l := by
  induction l with
  | nil => rfl
  | cons c rest ih =>
    simp only [splitDots]
    by_cases hc : c = '.'
    · rw [if_pos hc]
      obtain ⟨q, qs, hqs⟩ : ∃ q qs, splitDots rest = q :: qs := by
        cases h : splitDots rest with
        | nil => exact absurd h (splitDots_ne_nil rest)
        | cons q qs => exact ⟨q, qs, rfl⟩
      rw [hqs, joinDots_cons_cons]
      rw [hqs] at ih
      rw [ih, hc]
      rfl
    · rw [if_neg hc]
      cases h : splitDots rest with
      | nil => exact absurd h (splitDots_ne_nil rest)
      | cons p ps =>
        rw [h] at ih
        cases ps with
        | nil =>
          simp only [joinDots] at ih ⊢
          rw [ih]
        | cons q qs =>
          rw [joinDots_cons_cons, List.cons_append, ← joinDots_cons_cons, ih]

theorem no_dot_in_splitDots (l : List Char) (p : List Char)
    (hp : p ∈ splitDots l) : '.' ∉ p := by
  induction l generalizing p with
  | nil =>
    simp only [splitDots, List.mem_singleton] at hp
    subst hp; simp
  | cons c rest ih =>
    simp only [splitDots] at hp
    by_cases hc : c = '.'
    · rw [if_pos hc] at hp
      rcases List.mem_cons.mp hp with rfl | hp2
      · simp
      · exact ih p hp2
    · rw [if_neg hc] at hp
      cases h : splitDots rest with
      | nil => exact absurd h (splitDots_ne_nil rest)
      | cons q qs =>
        rw [h] at hp
        rcases List.mem_cons.mp hp with rfl | hp2
        · intro hmem
          rcases List.mem_cons.mp hmem with he | hmem2
          · exact hc he.symm
          · exact ih q (h ▸ List.mem_cons_self q qs) hmem2
        · exact ih p (h ▸ List.mem_cons_of_mem q hp2)

theorem splitDots_of_no_dot (l : List Char) (h : '.' ∉ l) :
    splitDots l = [l] := by
  induction l with
  | nil => rfl
  | cons c rest ih =>
    simp only [List.mem_cons, not_or] at h
    have hc : c ≠ '.' := fun he => h.1 he.symm
    simp only [splitDots, if_neg hc, ih h.2]

theorem splitDots_append_dot (a rest : List Char) (ha : '.' ∉ a) :
    splitDots (a ++ '.' :: rest) = a :: splitDots rest := by
  induction a with
  | nil => simp [splitDots]
  | cons c a2 ih =>
    simp only [List.mem_cons, not_or] at ha
    have hc : c ≠ '.' := fun he => ha.1 he.symm
    simp only [List.cons_append, splitDots, if_neg hc, List.append_eq]
    rw [ih ha.2]

theorem no_dot_of_digits (l : List Char) (h : l.all isAsciiDigit = true) :
    '.' ∉ l := by
  intro hmem
  have := List.all_eq_true.mp h '.' hmem
  simp [isAsciiDigit] at this

/-! ### `strptime` characterization lemmas (shared, for C6) -/

theorem daysInMonth_le_31 (y m : Nat) : daysInMonth y m ≤ 31 := by
  unfold daysInMonth
  split
  · split <;> omega
  · split <;> omega

theorem validDate_bounds (y m d : Nat) (h : validDate y m d = true) :
    1 ≤ y ∧ y ≤ 9999 ∧ 1 ≤ m ∧ m ≤ 12 ∧ 1 ≤ d ∧ d ≤ daysInMonth y m := by
  simp only [validDate, Bool.and_eq_true, decide_eq_true_eq] at h
  exact ⟨h.1.1.1.1.1, h.1.1.1.1.2, h.1.1.1.2, h.1.1.2, h.1.2, h.2⟩

/-- Soundness: a successful parse yields midnight of a date given by a
lenient `d.m.yyyy` decomposition of the input. -/
theorem strptime_sound (s : String) (dt : DateTime)
    (h : strptime_dmY s = some dt) : dt.tick = 0 ∧ LenientDMY s dt.date := by
  unfold strptime_dmY at h
  split at h
  case h_2 => cases h
  case h_1 ds ms ys heq =>
    split at h
    case isFalse => cases h
    case isTrue htok =>
      split at h
      case isFalse => cases h
      case isTrue hval =>
        cases h
        simp only [Bool.and_eq_true, dayToken, monthToken, yearToken,
          Bool.or_eq_true, beq_iff_eq, decide_eq_true_eq] at htok
        obtain ⟨⟨hday, hmonth⟩, hyear⟩ := htok
        obtain ⟨⟨⟨hddig, hdlen⟩, -⟩, -⟩ := hday
        obtain ⟨⟨⟨hmdig, hmlen⟩, -⟩, -⟩ := hmonth
        obtain ⟨hydig, hylen⟩ := hyear
        refine ⟨rfl, ds, ms, ys, ?_, hddig, hdlen, hmdig, hmlen, hydig, hylen, rfl, hval⟩
        have hs : s.data = joinDots (splitDots s.data) :=
          (joinDots_splitDots s.data).symm
        rw [heq] at hs
        simpa [joinDots] using hs

/-- Completeness: every lenient decomposition parses to midnight of its
date. -/
theorem strptime_complete (s : String) (d : Date) (h : LenientDMY s d) :
    strptime_dmY s = some ⟨d, 0⟩ := by
  obtain ⟨ds, ms, ys, hsplit, hddig, hdlen, hmdig, hmlen, hydig, hylen, hdate, hval⟩ := h
  have hdd : '.' ∉ ds := no_dot_of_digits ds hddig
  have hmd : '.' ∉ ms := no_dot_of_digits ms hmdig
  have hyd : '.' ∉ ys := no_dot_of_digits ys hydig
  have hsd : splitDots s.data = [ds, ms, ys] := by
    rw [hsplit, splitDots_append_dot ds _ hdd, splitDots_append_dot ms _ hmd,
      splitDots_of_no_dot ys hyd]
  subst hdate
  obtain ⟨-, -, hm1, hm12, hd1, hdm⟩ := validDate_bounds _ _ _ hval
  have hd31 : digitsToNat ds ≤ 31 :=
    le_trans hdm (daysInMonth_le_31 _ _)
  have htok : (dayToken ds && monthToken ms && yearToken ys) = true := by
    simp only [dayToken, monthToken, yearToken, Bool.and_eq_true,
      Bool.or_eq_true, beq_iff_eq, decide_eq_true_eq]
    exact ⟨⟨⟨⟨⟨hddig, hdlen⟩, hd1⟩, hd31⟩, ⟨⟨⟨hmdig, hmlen⟩, hm1⟩, hm12⟩⟩,
      hydig, hylen⟩
  unfold strptime_dmY
  rw [hsd]
  simp [htok, hval]

/-! ### C6 — `Birthday` validation -/

/-- C6 counterexample: `"1.01.1990"` (single-digit day, so not the spec's
two-digit `DD.MM.YYYY` pattern) is accepted by the code — `strptime` with
`%d` also matches one digit — refuting the claimed "succeeds only if the
text matches `DD.MM.YYYY`". -/
theorem birthday_pattern_counterexample :
    Birthday.init "1.01.1990" ⟨⟨2024, 6, 10⟩, 0⟩ = .ok ⟨⟨1990, 1, 1⟩⟩ ∧
    specStrictDMY "1.01.1990" = false := by
  constructor
  · rfl
  · rfl

/-- C6 as amended: `BirthdayDate(s)` (with the construction-time clock `now`)
succeeds storing calendar date `b.value` exactly when `s` decomposes as a
one-or-two-digit day, one-or-two-digit month and four-digit year separated by
dots, with valid calendar values equal to `b.value`, and midnight of that
date is not strictly after `now`; the stored value is the date alone (no time
component survives). -/
theorem birthday_validation (s : String) (now : DateTime) (b : Birthday) :
    Birthday.init s now = .ok b ↔
      (LenientDMY s b.value ∧ DateTime.lt now ⟨b.value, 0⟩ = false) := by
  obtain ⟨bv⟩ := b
  constructor
  · intro h
    simp only [Birthday.init] at h
    split at h
    case h_1 => cases h
    case h_2 dt hdt =>
      split at h
      case isTrue => cases h
      case isFalse hfut =>
        cases h
        obtain ⟨htick, hlen⟩ := strptime_sound s dt hdt
        have hdt0 : dt = ⟨dt.date, 0⟩ := by
          cases dt; simp_all
        refine ⟨hlen, ?_⟩
        rw [← hdt0]
        cases hft : now.lt dt
        · rfl
        · exact absurd hft hfut
  · rintro ⟨hlen, hfut⟩
    have hp := strptime_complete s bv hlen
    simp only [Birthday.init, hp, hfut, Bool.false_eq_true, if_neg,
      not_false_eq_true]

end TaskPy
